import Mathlib

/-!
Verification of the Keccak-f[1600] permutation and streaming sponge of
src/native/c/keccak/keccak1600.c (header: keccak1600.h).

Machine integers are modelled as `Nat` with explicit reduction modulo `2 ^ 64`
where the C code relies on `uint64_t` wrap-around.  The 25-lane state is a
`List Nat` in the layout the source documents (`s[5*y + x]` is lane `(x, y)`,
each lane little-endian when viewed as bytes).  The two unbounded C loops
(the full-block absorb loop and the squeeze loop) are modelled with an explicit
fuel argument and return `none` when the fuel is exhausted, which happens
exactly when the C loop fails to make progress within that many iterations.
The sponge loops are parameterised by the permutation they call so that frame
properties of the byte loops can be stated; the functions named as in the
source instantiate the parameter with `keccakf1600`.
-/

set_option maxRecDepth 4000

/-- 64-bit rotate-left, transcribing `keccak_rotl64`:
`(x << (n & 63)) | (x >> ((64 - n) & 63))` on `uint64_t`. -/
def rotl64 (x n : Nat) : Nat :=
  ((x <<< (n &&& 63)) % 2 ^ 64) ||| (x >>> ((64 - n) &&& 63))

/-- 64-bit bitwise complement (`~` on `uint64_t`). -/
def not64 (x : Nat) : Nat :=
  x ^^^ (2 ^ 64 - 1)

/-- The 24 round constants `KECCAK_RC` from keccak1600.c. -/
def KECCAK_RC : List Nat :=
  [0x0000000000000001, 0x0000000000008082,
   0x800000000000808a, 0x8000000080008000,
   0x000000000000808b, 0x0000000080000001,
   0x8000000080008081, 0x8000000000008009,
   0x000000000000008a, 0x0000000000000088,
   0x0000000080008009, 0x000000008000000a,
   0x000000008000808b, 0x800000000000008b,
   0x8000000000008089, 0x8000000000008003,
   0x8000000000008002, 0x8000000000000080,
   0x000000000000800a, 0x800000008000000a,
   0x8000000080008081, 0x8000000000008080,
   0x0000000080000001, 0x8000000080008008]

/-- One round of the `KECCAK_ROUND` macro from keccak1600.c, transcribed
line by line (theta, the rho-pi assignments to the `b` registers, chi, iota).
The state list holds lane `aXY` at index `5*Y + X`, exactly as the load/store
code at the top and bottom of `keccakf1600` lays the registers out. -/
def keccakRound (s : List Nat) (rc : Nat) : List Nat :=
  let a00 := s.getD 0 0; let a10 := s.getD 1 0; let a20 := s.getD 2 0
  let a30 := s.getD 3 0; let a40 := s.getD 4 0
  let a01 := s.getD 5 0; let a11 := s.getD 6 0; let a21 := s.getD 7 0
  let a31 := s.getD 8 0; let a41 := s.getD 9 0
  let a02 := s.getD 10 0; let a12 := s.getD 11 0; let a22 := s.getD 12 0
  let a32 := s.getD 13 0; let a42 := s.getD 14 0
  let a03 := s.getD 15 0; let a13 := s.getD 16 0; let a23 := s.getD 17 0
  let a33 := s.getD 18 0; let a43 := s.getD 19 0
  let a04 := s.getD 20 0; let a14 := s.getD 21 0; let a24 := s.getD 22 0
  let a34 := s.getD 23 0; let a44 := s.getD 24 0
  let c0 := a00 ^^^ a01 ^^^ a02 ^^^ a03 ^^^ a04
  let c1 := a10 ^^^ a11 ^^^ a12 ^^^ a13 ^^^ a14
  let c2 := a20 ^^^ a21 ^^^ a22 ^^^ a23 ^^^ a24
  let c3 := a30 ^^^ a31 ^^^ a32 ^^^ a33 ^^^ a34
  let c4 := a40 ^^^ a41 ^^^ a42 ^^^ a43 ^^^ a44
  let d0 := c4 ^^^ rotl64 c1 1
  let d1 := c0 ^^^ rotl64 c2 1
  let d2 := c1 ^^^ rotl64 c3 1
  let d3 := c2 ^^^ rotl64 c4 1
  let d4 := c3 ^^^ rotl64 c0 1
  let a00 := a00 ^^^ d0; let a01 := a01 ^^^ d0; let a02 := a02 ^^^ d0
  let a03 := a03 ^^^ d0; let a04 := a04 ^^^ d0
  let a10 := a10 ^^^ d1; let a11 := a11 ^^^ d1; let a12 := a12 ^^^ d1
  let a13 := a13 ^^^ d1; let a14 := a14 ^^^ d1
  let a20 := a20 ^^^ d2; let a21 := a21 ^^^ d2; let a22 := a22 ^^^ d2
  let a23 := a23 ^^^ d2; let a24 := a24 ^^^ d2
  let a30 := a30 ^^^ d3; let a31 := a31 ^^^ d3; let a32 := a32 ^^^ d3
  let a33 := a33 ^^^ d3; let a34 := a34 ^^^ d3
  let a40 := a40 ^^^ d4; let a41 := a41 ^^^ d4; let a42 := a42 ^^^ d4
  let a43 := a43 ^^^ d4; let a44 := a44 ^^^ d4
  let b00 := a00
  let b10 := rotl64 a01 1; let b20 := rotl64 a02 62
  let b30 := rotl64 a03 28; let b40 := rotl64 a04 27
  let b01 := rotl64 a10 36; let b11 := rotl64 a11 44
  let b21 := rotl64 a12 6; let b31 := rotl64 a13 55
  let b41 := rotl64 a14 20
  let b02 := rotl64 a20 3; let b12 := rotl64 a21 10
  let b22 := rotl64 a22 43; let b32 := rotl64 a23 25
  let b42 := rotl64 a24 39
  let b03 := rotl64 a30 41; let b13 := rotl64 a31 45
  let b23 := rotl64 a32 15; let b33 := rotl64 a33 21
  let b43 := rotl64 a34 8
  let b04 := rotl64 a40 18; let b14 := rotl64 a41 2
  let b24 := rotl64 a42 61; let b34 := rotl64 a43 56
  let b44 := rotl64 a44 14
  let a00 := b00 ^^^ (not64 b10 &&& b20)
  let a10 := b10 ^^^ (not64 b20 &&& b30)
  let a20 := b20 ^^^ (not64 b30 &&& b40)
  let a30 := b30 ^^^ (not64 b40 &&& b00)
  let a40 := b40 ^^^ (not64 b00 &&& b10)
  let a01 := b01 ^^^ (not64 b11 &&& b21)
  let a11 := b11 ^^^ (not64 b21 &&& b31)
  let a21 := b21 ^^^ (not64 b31 &&& b41)
  let a31 := b31 ^^^ (not64 b41 &&& b01)
  let a41 := b41 ^^^ (not64 b01 &&& b11)
  let a02 := b02 ^^^ (not64 b12 &&& b22)
  let a12 := b12 ^^^ (not64 b22 &&& b32)
  let a22 := b22 ^^^ (not64 b32 &&& b42)
  let a32 := b32 ^^^ (not64 b42 &&& b02)
  let a42 := b42 ^^^ (not64 b02 &&& b12)
  let a03 := b03 ^^^ (not64 b13 &&& b23)
  let a13 := b13 ^^^ (not64 b23 &&& b33)
  let a23 := b23 ^^^ (not64 b33 &&& b43)
  let a33 := b33 ^^^ (not64 b43 &&& b03)
  let a43 := b43 ^^^ (not64 b03 &&& b13)
  let a04 := b04 ^^^ (not64 b14 &&& b24)
  let a14 := b14 ^^^ (not64 b24 &&& b34)
  let a24 := b24 ^^^ (not64 b34 &&& b44)
  let a34 := b34 ^^^ (not64 b44 &&& b04)
  let a44 := b44 ^^^ (not64 b04 &&& b14)
  let a00 := a00 ^^^ rc
  [a00, a10, a20, a30, a40,
   a01, a11, a21, a31, a41,
   a02, a12, a22, a32, a42,
   a03, a13, a23, a33, a43,
   a04, a14, a24, a34, a44]

/-- `keccakf1600` from keccak1600.c: the 24 unrolled `KECCAK_ROUND`
invocations, one per entry of `KECCAK_RC`, in order. -/
def keccakf1600 (s : List Nat) : List Nat :=
  KECCAK_RC.foldl keccakRound s

/-- Byte `i` of the state viewed as the C code views it: the `uint8_t *` cast
of the `uint64_t a[25]` array with little-endian lanes. -/
def stGetByte (a : List Nat) (i : Nat) : Nat :=
  (a.getD (i / 8) 0 >>> (8 * (i % 8))) &&& 255

/-- `st[i] ^= b` on the byte view of the state. -/
def stXorByte (a : List Nat) (i : Nat) (b : Nat) : List Nat :=
  a.set (i / 8) (a.getD (i / 8) 0 ^^^ (b <<< (8 * (i % 8))))

/-- `for (i = 0; i < t; i++) st[pos + i] ^= in[i];` -/
def xorBytesAt (a : List Nat) (pos : Nat) : List Nat → List Nat
  | [] => a
  | b :: bs => xorBytesAt (stXorByte a pos b) (pos + 1) bs

/-- `memcpy(out, st + pos, t)` on the byte view of the state. -/
def readBytes (a : List Nat) (pos t : Nat) : List Nat :=
  (List.range t).map (fun i => stGetByte a (pos + i))

/-- The `keccak1600_ctx` struct: 25-lane state, rate and position in bytes,
domain-separation byte. -/
structure keccak1600_ctx where
  a : List Nat
  rate : Nat
  pos : Nat
  delim : Nat
  deriving DecidableEq

/-- `keccak1600_init`: zero the state, store `rate` and `delim`, `pos = 0`.
No validation of `rate` is performed, exactly as in the C code. -/
def keccak1600_init (rate dl : Nat) : keccak1600_ctx :=
  ⟨List.replicate 25 0, rate, 0, dl⟩

/-- The `while (inlen >= rate)` full-block loop of `keccak1600_absorb`,
parameterised by the permutation `f` it calls and by explicit fuel.
Each iteration XORs the next `rate` input bytes into state bytes
`0 .. rate-1` and permutes.  `none` means the loop guard still held after
`fuel` iterations (for `rate = 0` the guard never falls while the input is
untouched, mirroring the C loop's failure to make progress). -/
def absorbBlocksW (f : List Nat → List Nat) (rate : Nat) :
    Nat → List Nat → List Nat → Option (List Nat × List Nat)
  | 0, s, input => if rate ≤ input.length then none else some (s, input)
  | fuel + 1, s, input =>
    if rate ≤ input.length then
      absorbBlocksW f rate fuel (f (xorBytesAt s 0 (input.take rate))) (input.drop rate)
    else some (s, input)

/-- `keccak1600_absorb`, parameterised by the permutation: the partial-block
prefix (`if (pos)`), the full-block loop, and the tail, transcribed from the
three phases of the C function. -/
def absorbW (f : List Nat → List Nat) (ctx : keccak1600_ctx) (input : List Nat) :
    Option keccak1600_ctx :=
  let rate := ctx.rate
  let s1 : List Nat × Nat × List Nat :=
    if ctx.pos = 0 then (ctx.a, ctx.pos, input)
    else
      let t := min (rate - ctx.pos) input.length
      let s := xorBytesAt ctx.a ctx.pos (input.take t)
      if ctx.pos + t = rate then (f s, 0, input.drop t)
      else (s, ctx.pos + t, input.drop t)
  match absorbBlocksW f rate s1.2.2.length s1.1 s1.2.2 with
  | none => none
  | some sr => some ⟨xorBytesAt sr.1 s1.2.1 sr.2, rate, s1.2.1 + sr.2.length, ctx.delim⟩

/-- `keccak1600_absorb` from keccak1600.c (calling `keccakf1600`). -/
def keccak1600_absorb : keccak1600_ctx → List Nat → Option keccak1600_ctx :=
  absorbW keccakf1600

/-- `keccak1600_finalize`: XOR `delim` at byte `pos`, XOR `0x80` at byte
`rate - 1`, permute once, reset `pos` to 0. -/
def keccak1600_finalize (ctx : keccak1600_ctx) : keccak1600_ctx :=
  let s := stXorByte ctx.a ctx.pos ctx.delim
  let s := stXorByte s (ctx.rate - 1) 0x80
  ⟨keccakf1600 s, ctx.rate, 0, ctx.delim⟩

/-- Unsigned 64-bit (`size_t`) subtraction `a - b` with wrap-around, as the C
`rate - pos` computes it: `a - b` when `b ≤ a`, otherwise wrapped modulo
`2 ^ 64`. -/
def usub64 (a b : Nat) : Nat :=
  if b ≤ a then a - b else 2 ^ 64 - (b - a)

/-- On the in-range side, `usub64` is plain subtraction. -/
theorem usub64_of_le (a b : Nat) (h : b ≤ a) : usub64 a b = a - b :=
  if_pos h

/-- The `while (outlen)` loop of `keccak1600_squeeze`, parameterised by the
permutation and by explicit fuel; returns the bytes copied out together with
the final state and position.  Each iteration permutes when `pos = rate`,
then copies `t = min (rate - pos) outlen` bytes, where `rate - pos` is the
C's `size_t` subtraction (it wraps when `pos > rate`, and the clamp
`if (t > outlen) t = outlen` is the `min`). -/
def squeezeLoopW (f : List Nat → List Nat) (rate : Nat) :
    Nat → List Nat → Nat → Nat → Option (List Nat × List Nat × Nat)
  | 0, s, pos, outlen => if outlen = 0 then some ([], s, pos) else none
  | fuel + 1, s, pos, outlen =>
    if outlen = 0 then some ([], s, pos)
    else
      let sp : List Nat × Nat := if pos = rate then (f s, 0) else (s, pos)
      let t := min (usub64 rate sp.2) outlen
      match squeezeLoopW f rate fuel sp.1 (sp.2 + t) (outlen - t) with
      | none => none
      | some r => some (readBytes sp.1 sp.2 t ++ r.1, r.2)

/-- `keccak1600_squeeze`, parameterised by the permutation. -/
def squeezeW (f : List Nat → List Nat) (ctx : keccak1600_ctx) (outlen : Nat) :
    Option (List Nat × keccak1600_ctx) :=
  match squeezeLoopW f ctx.rate outlen ctx.a ctx.pos outlen with
  | none => none
  | some r => some (r.1, ⟨r.2.1, ctx.rate, r.2.2, ctx.delim⟩)

/-- `keccak1600_squeeze` from keccak1600.c (calling `keccakf1600`). -/
def keccak1600_squeeze : keccak1600_ctx → Nat → Option (List Nat × keccak1600_ctx) :=
  squeezeW keccakf1600

/-- `KECCAK_RATE_SHA3_224` (keccak1600.h). -/
def KECCAK_RATE_SHA3_224 : Nat := 144
/-- `KECCAK_RATE_SHA3_256` (keccak1600.h). -/
def KECCAK_RATE_SHA3_256 : Nat := 136
/-- `KECCAK_RATE_SHA3_384` (keccak1600.h). -/
def KECCAK_RATE_SHA3_384 : Nat := 104
/-- `KECCAK_RATE_SHA3_512` (keccak1600.h). -/
def KECCAK_RATE_SHA3_512 : Nat := 72
/-- `KECCAK_DELIM_KECCAK` (keccak1600.h). -/
def KECCAK_DELIM_KECCAK : Nat := 0x01
/-- `KECCAK_DELIM_SHA3` (keccak1600.h). -/
def KECCAK_DELIM_SHA3 : Nat := 0x06
/-- `KECCAK_DELIM_SHAKE` (keccak1600.h). -/
def KECCAK_DELIM_SHAKE : Nat := 0x1F

/-- `sha3_hash_generic`: init, absorb the whole input, finalize, squeeze. -/
def sha3_hash_generic (input : List Nat) (outlen rate dl : Nat) : Option (List Nat) :=
  match keccak1600_absorb (keccak1600_init rate dl) input with
  | none => none
  | some c =>
    match keccak1600_squeeze (keccak1600_finalize c) outlen with
    | none => none
    | some r => some r.1

/-- `keccak_256`: legacy Keccak-256, rate 136, delim 0x01, 32-byte digest. -/
def keccak_256 (input : List Nat) : Option (List Nat) :=
  sha3_hash_generic input 32 KECCAK_RATE_SHA3_256 KECCAK_DELIM_KECCAK

/-- `sha3_256`: rate 136, delim 0x06, 32-byte digest. -/
def sha3_256 (input : List Nat) : Option (List Nat) :=
  sha3_hash_generic input 32 KECCAK_RATE_SHA3_256 KECCAK_DELIM_SHA3

/-- `sha3_224`: rate 144, delim 0x06, 28-byte digest. -/
def sha3_224 (input : List Nat) : Option (List Nat) :=
  sha3_hash_generic input 28 KECCAK_RATE_SHA3_224 KECCAK_DELIM_SHA3

/-- `sha3_384`: rate 104, delim 0x06, 48-byte digest. -/
def sha3_384 (input : List Nat) : Option (List Nat) :=
  sha3_hash_generic input 48 KECCAK_RATE_SHA3_384 KECCAK_DELIM_SHA3

/-- `sha3_512`: rate 72, delim 0x06, 64-byte digest. -/
def sha3_512 (input : List Nat) : Option (List Nat) :=
  sha3_hash_generic input 64 KECCAK_RATE_SHA3_512 KECCAK_DELIM_SHA3

/-!
The standard Keccak-f[1600] permutation, written from the specification text
(section 4.1): Theta, RhoPi, Chi, Iota in fixed order per round, 24 rounds,
with the 24 round constants and 25 rotation offsets of the Keccak/SHA-3
standard.  The state layout is the one the spec and the header document:
lane `(x, y)` at list index `x + 5 * y`.  This definition exists to be
compared against the `keccakf1600` transcription above.
-/

/-- Lane `(x, y)` of the state (coordinates taken mod 5). -/
def specLane (s : List Nat) (x y : Nat) : Nat :=
  s.getD (x % 5 + 5 * (y % 5)) 0

/-- The standard rotation-offset table, `specRho x y` for lane `(x, y)`
(FIPS 202 / Keccak reference offsets mod 64). -/
def specRho : List (List Nat) :=
  [[0, 36, 3, 41, 18],
   [1, 44, 10, 45, 2],
   [62, 6, 43, 15, 61],
   [28, 55, 25, 21, 56],
   [27, 20, 39, 8, 14]]

/-- Theta: XOR-reduce each column to a parity, and XOR into every lane of
column `x` the parity of column `x-1` and the rotated-by-1 parity of column
`x+1`. -/
def specTheta (s : List Nat) : List Nat :=
  let par := fun x =>
    specLane s x 0 ^^^ specLane s x 1 ^^^ specLane s x 2 ^^^
      specLane s x 3 ^^^ specLane s x 4
  (List.range 25).map (fun i =>
    s.getD i 0 ^^^ (par ((i % 5) + 4) ^^^ rotl64 (par ((i % 5) + 1)) 1))

/-- RhoPi: lane `(x, y)` is rotated left by its standard offset and moved to
position `(y, 2x + 3y)`; equivalently the lane arriving at `(X, Y)` comes
from `(X + 3Y, X)` rotated by that source lane's offset. -/
def specRhoPi (s : List Nat) : List Nat :=
  (List.range 25).map (fun i =>
    let sx := (i % 5 + 3 * (i / 5)) % 5
    let sy := i % 5
    rotl64 (specLane s sx sy) ((specRho.getD sx []).getD sy 0))

/-- Chi: `lane[x] = lane[x] XOR (NOT lane[x+1] AND lane[x+2])`, indices mod 5,
row-wise. -/
def specChi (s : List Nat) : List Nat :=
  (List.range 25).map (fun i =>
    specLane s (i % 5) (i / 5) ^^^
      (not64 (specLane s (i % 5 + 1) (i / 5)) &&& specLane s (i % 5 + 2) (i / 5)))

/-- Iota: XOR the round constant into lane `(0, 0)` only. -/
def specIota (s : List Nat) (rc : Nat) : List Nat :=
  s.set 0 (s.getD 0 0 ^^^ rc)

/-- One standard round: Theta, then RhoPi, then Chi, then Iota. -/
def specRound (s : List Nat) (rc : Nat) : List Nat :=
  specIota (specChi (specRhoPi (specTheta s))) rc

/-- The standard Keccak-f[1600]: 24 rounds over the standard constants. -/
def specKeccakP (s : List Nat) : List Nat :=
  KECCAK_RC.foldl specRound s

/-!
Byte-at-a-time reformulations of absorb and squeeze.  These are the proof
vehicles: the C loops are shown to compute their folds, and chunking and
streaming laws are immediate for folds.
-/

/-- Absorb one byte: XOR at `pos`, advance, permute when the window fills. -/
def absorbByteW (f : List Nat → List Nat) (rate : Nat)
    (sp : List Nat × Nat) (b : Nat) : List Nat × Nat :=
  let s := stXorByte sp.1 sp.2 b
  if sp.2 + 1 = rate then (f s, 0) else (s, sp.2 + 1)

/-- Absorb a byte sequence as the left fold of `absorbByteW`. -/
def absorbBytesW (f : List Nat → List Nat) (rate : Nat)
    (sp : List Nat × Nat) (bs : List Nat) : List Nat × Nat :=
  bs.foldl (absorbByteW f rate) sp

/-- Squeeze one byte: permute first when the window is exhausted, then read
the byte at `pos` and advance. -/
def squeezeByteW (f : List Nat → List Nat) (rate : Nat)
    (sp : List Nat × Nat) : Nat × List Nat × Nat :=
  let sp : List Nat × Nat := if sp.2 = rate then (f sp.1, 0) else sp
  (stGetByte sp.1 sp.2, sp.1, sp.2 + 1)

/-- Squeeze `n` bytes, one at a time. -/
def squeezeBytesW (f : List Nat → List Nat) (rate : Nat) :
    Nat → List Nat × Nat → List Nat × List Nat × Nat
  | 0, sp => ([], sp.1, sp.2)
  | n + 1, sp =>
    let r := squeezeByteW f rate sp
    let rest := squeezeBytesW f rate n r.2
    (r.1 :: rest.1, rest.2)

/-!
Equivalence of the C absorb loops with the byte-at-a-time fold.
-/

/-- A run of byte XORs that stays inside the rate window: the fold equals one
`xorBytesAt` followed by a permutation exactly when the window fills. -/
theorem absorbBytesW_run (f : List Nat → List Nat) (rate : Nat) (bs : List Nat) :
    ∀ (s : List Nat) (pos : Nat), pos < rate → pos + bs.length ≤ rate →
      absorbBytesW f rate (s, pos) bs =
        if pos + bs.length = rate then (f (xorBytesAt s pos bs), 0)
        else (xorBytesAt s pos bs, pos + bs.length) := by
  induction bs with
  | nil =>
    intro s pos hlt _
    simp only [List.length_nil, Nat.add_zero]
    rw [if_neg (by omega)]
    rfl
  | cons b bs ih =>
    intro s pos hlt hle
    simp only [List.length_cons] at hle
    by_cases hfill : pos + 1 = rate
    · have hbs : bs = [] := List.length_eq_zero.mp (by omega)
      subst hbs
      simp only [List.length_cons, List.length_nil, Nat.zero_add]
      rw [if_pos (by omega)]
      simp [absorbBytesW, absorbByteW, hfill, xorBytesAt]
    · have h1 : pos + 1 < rate := by omega
      have hstep : absorbBytesW f rate (s, pos) (b :: bs) =
          absorbBytesW f rate (stXorByte s pos b, pos + 1) bs := by
        simp [absorbBytesW, absorbByteW, hfill]
      rw [hstep, ih (stXorByte s pos b) (pos + 1) h1 (by omega)]
      have harr : pos + (bs.length + 1) = pos + 1 + bs.length := by omega
      simp only [List.length_cons, harr]
      rfl

/-- Absorbing a concatenation is absorbing the pieces in order
(`List.foldl_append`). -/
theorem absorbBytesW_append (f : List Nat → List Nat) (rate : Nat)
    (sp : List Nat × Nat) (A B : List Nat) :
    absorbBytesW f rate sp (A ++ B) = absorbBytesW f rate (absorbBytesW f rate sp A) B := by
  simp [absorbBytesW]

/-- One absorbed byte keeps the position strictly below the rate. -/
theorem absorbByteW_pos_lt (f : List Nat → List Nat) (rate : Nat) (h : 1 ≤ rate)
    (sp : List Nat × Nat) (b : Nat) (hp : sp.2 < rate) :
    (absorbByteW f rate sp b).2 < rate := by
  unfold absorbByteW
  split
  · exact h
  · next hne =>
    show sp.2 + 1 < rate
    omega

/-- The byte-at-a-time fold keeps the position strictly below the rate. -/
theorem absorbBytesW_pos_lt (f : List Nat → List Nat) (rate : Nat) (h : 1 ≤ rate)
    (bs : List Nat) :
    ∀ sp : List Nat × Nat, sp.2 < rate → (absorbBytesW f rate sp bs).2 < rate := by
  induction bs with
  | nil => intro sp hp; exact hp
  | cons b bs ih =>
    intro sp hp
    show (absorbBytesW f rate (absorbByteW f rate sp b) bs).2 < rate
    exact ih _ (absorbByteW_pos_lt f rate h sp b hp)

/-- The full-block while loop terminates with fuel `input.length` when
`1 ≤ rate`, leaves a remainder shorter than the rate, and computes the
byte-at-a-time fold (up to the final partial-block XOR). -/
theorem absorbBlocksW_spec (f : List Nat → List Nat) (rate : Nat) (h1 : 1 ≤ rate) :
    ∀ (fuel : Nat) (s input : List Nat), input.length ≤ fuel →
      ∃ s2 rest, absorbBlocksW f rate fuel s input = some (s2, rest) ∧
        rest.length < rate ∧
        absorbBytesW f rate (s, 0) input = (xorBytesAt s2 0 rest, rest.length) := by
  intro fuel
  induction fuel with
  | zero =>
    intro s input hle
    have hinp : input = [] := List.length_eq_zero.mp (by omega)
    subst hinp
    refine ⟨s, [], ?_, by omega, rfl⟩
    simp only [absorbBlocksW, List.length_nil]
    rw [if_neg (by omega)]
  | succ fuel ih =>
    intro s input hle
    by_cases hfull : rate ≤ input.length
    · have hdrop : (input.drop rate).length ≤ fuel := by
        simp only [List.length_drop]; omega
      obtain ⟨s2, rest, heq, hlt, hbytes⟩ :=
        ih (f (xorBytesAt s 0 (input.take rate))) (input.drop rate) hdrop
      refine ⟨s2, rest, ?_, hlt, ?_⟩
      · simp only [absorbBlocksW]
        rw [if_pos hfull]
        exact heq
      · conv_lhs => rw [← List.take_append_drop rate input]
        rw [absorbBytesW_append,
          absorbBytesW_run f rate (input.take rate) s 0 (by omega)
            (by simp only [List.length_take]; omega)]
        rw [if_pos (by simp only [List.length_take]; omega)]
        exact hbytes
    · push_neg at hfull
      refine ⟨s, input, ?_, hfull, ?_⟩
      · simp only [absorbBlocksW]
        rw [if_neg (by omega)]
      · rw [absorbBytesW_run f rate input s 0 (by omega) (by omega)]
        rw [if_neg (by omega)]
        simp

/-- `keccak1600_absorb` (for any permutation parameter) succeeds on a context
satisfying the rate/position invariants and computes exactly the
byte-at-a-time fold over the input. -/
theorem absorbW_eq (f : List Nat → List Nat) (ctx : keccak1600_ctx) (input : List Nat)
    (h1 : 1 ≤ ctx.rate) (h2 : ctx.pos < ctx.rate) :
    absorbW f ctx input =
      some ⟨(absorbBytesW f ctx.rate (ctx.a, ctx.pos) input).1, ctx.rate,
            (absorbBytesW f ctx.rate (ctx.a, ctx.pos) input).2, ctx.delim⟩ := by
  obtain ⟨a, rate, pos, dl⟩ := ctx
  simp only at h1 h2 ⊢
  by_cases hpos : pos = 0
  · subst hpos
    obtain ⟨s2, rest, heq, hlt, hbytes⟩ :=
      absorbBlocksW_spec f rate h1 input.length a input (Nat.le_refl _)
    simp only [absorbW, eq_self_iff_true, if_true]
    rw [heq]
    simp [hbytes]
  · rcases le_or_lt (rate - pos) input.length with hbig | hsmall
    · have hmin : min (rate - pos) input.length = rate - pos := Nat.min_eq_left hbig
      have hfill : pos + (rate - pos) = rate := by omega
      simp only [absorbW, if_neg hpos, hmin, hfill, eq_self_iff_true, if_true]
      obtain ⟨s2, rest, heq, hlt, hbytes⟩ :=
        absorbBlocksW_spec f rate h1 (input.drop (rate - pos)).length
          (f (xorBytesAt a pos (input.take (rate - pos))))
          (input.drop (rate - pos)) (Nat.le_refl _)
      rw [heq]
      conv_rhs => rw [← List.take_append_drop (rate - pos) input]
      rw [absorbBytesW_append,
        absorbBytesW_run f rate (input.take (rate - pos)) a pos h2
          (by simp only [List.length_take]; omega)]
      rw [if_pos (by simp only [List.length_take]; omega)]
      simp [hbytes]
    · have hmin : min (rate - pos) input.length = input.length :=
        Nat.min_eq_right (Nat.le_of_lt hsmall)
      have hne : ¬ pos + input.length = rate := by omega
      simp only [absorbW, if_neg hpos, hmin, List.take_length, if_neg hne]
      rw [absorbBytesW_run f rate input a pos h2 (by omega)]
      rw [if_neg hne]
      simp only [List.drop_length, List.length_nil]
      rw [show absorbBlocksW f rate 0 (xorBytesAt a pos input) [] =
            some (xorBytesAt a pos input, []) by
        simp only [absorbBlocksW, List.length_nil]; rw [if_neg (by omega)]]
      simp [xorBytesAt]

/-- `keccak1600_absorb` specialisation of `absorbW_eq`. -/
theorem keccak1600_absorb_eq (ctx : keccak1600_ctx) (input : List Nat)
    (h1 : 1 ≤ ctx.rate) (h2 : ctx.pos < ctx.rate) :
    keccak1600_absorb ctx input =
      some ⟨(absorbBytesW keccakf1600 ctx.rate (ctx.a, ctx.pos) input).1, ctx.rate,
            (absorbBytesW keccakf1600 ctx.rate (ctx.a, ctx.pos) input).2, ctx.delim⟩ :=
  absorbW_eq keccakf1600 ctx input h1 h2

/-- An absorb call preserves the rate/position invariants and the rate and
delimiter fields. -/
theorem keccak1600_absorb_inv (ctx c1 : keccak1600_ctx) (input : List Nat)
    (h1 : 1 ≤ ctx.rate) (h2 : ctx.pos < ctx.rate)
    (h : keccak1600_absorb ctx input = some c1) :
    1 ≤ c1.rate ∧ c1.pos < c1.rate ∧ c1.rate = ctx.rate ∧ c1.delim = ctx.delim := by
  rw [keccak1600_absorb_eq ctx input h1 h2] at h
  obtain rfl : _ = c1 := Option.some.inj h
  refine ⟨h1, ?_, rfl, rfl⟩
  exact absorbBytesW_pos_lt keccakf1600 ctx.rate h1 input (ctx.a, ctx.pos) h2

/-- Absorbing two chunks in order produces the same context as absorbing
their concatenation. -/
theorem keccak1600_absorb_absorb (ctx : keccak1600_ctx) (A B : List Nat)
    (h1 : 1 ≤ ctx.rate) (h2 : ctx.pos < ctx.rate) :
    (keccak1600_absorb ctx A).bind (fun c => keccak1600_absorb c B) =
      keccak1600_absorb ctx (A ++ B) := by
  rw [keccak1600_absorb_eq ctx A h1 h2, Option.some_bind]
  have h2A : (absorbBytesW keccakf1600 ctx.rate (ctx.a, ctx.pos) A).2 < ctx.rate :=
    absorbBytesW_pos_lt keccakf1600 ctx.rate h1 A (ctx.a, ctx.pos) h2
  rw [keccak1600_absorb_eq
    ⟨(absorbBytesW keccakf1600 ctx.rate (ctx.a, ctx.pos) A).1, ctx.rate,
     (absorbBytesW keccakf1600 ctx.rate (ctx.a, ctx.pos) A).2, ctx.delim⟩ B h1 h2A]
  rw [keccak1600_absorb_eq ctx (A ++ B) h1 h2]
  rw [absorbBytesW_append]

/-- Any sequence of absorb calls produces the same context as one absorb of
the flattened byte sequence. -/
theorem keccak1600_absorb_flatten (chunks : List (List Nat)) :
    ∀ ctx : keccak1600_ctx, 1 ≤ ctx.rate → ctx.pos < ctx.rate →
      chunks.foldl (fun oc ch => oc.bind (fun c => keccak1600_absorb c ch)) (some ctx)
        = keccak1600_absorb ctx chunks.flatten := by
  induction chunks with
  | nil =>
    intro ctx h1 h2
    rw [show (([] : List (List Nat)).flatten) = [] from rfl]
    rw [keccak1600_absorb_eq ctx [] h1 h2]
    rfl
  | cons ch rest ih =>
    intro ctx h1 h2
    obtain ⟨c1, hc1⟩ : ∃ c1, keccak1600_absorb ctx ch = some c1 :=
      ⟨_, keccak1600_absorb_eq ctx ch h1 h2⟩
    obtain ⟨g1, g2, _, _⟩ := keccak1600_absorb_inv ctx c1 ch h1 h2 hc1
    rw [List.foldl_cons,
      show (some ctx).bind (fun c => keccak1600_absorb c ch) = keccak1600_absorb ctx ch
        from rfl,
      hc1, ih c1 g1 g2, List.flatten_cons,
      ← keccak1600_absorb_absorb ctx ch rest.flatten h1 h2, hc1, Option.some_bind]

/-!
Equivalence of the C squeeze loop with the byte-at-a-time reformulation.
-/

/-- Unfolding one byte of `readBytes`. -/
theorem readBytes_succ (a : List Nat) (pos t : Nat) :
    readBytes a pos (t + 1) = stGetByte a pos :: readBytes a (pos + 1) t := by
  simp only [readBytes, List.range_succ_eq_map, List.map_cons, List.map_map, Nat.add_zero]
  congr 1
  apply List.map_congr_left
  intro i _
  simp only [Function.comp_apply]
  congr 1
  omega

/-- A squeeze run that stays inside the rate window copies bytes without
permuting. -/
theorem squeezeBytesW_run (f : List Nat → List Nat) (rate : Nat) (t : Nat) :
    ∀ (s : List Nat) (pos : Nat), pos + t ≤ rate →
      squeezeBytesW f rate t (s, pos) = (readBytes s pos t, s, pos + t) := by
  induction t with
  | zero =>
    intro s pos h
    simp [squeezeBytesW, readBytes]
  | succ t ih =>
    intro s pos h
    simp only [squeezeBytesW, squeezeByteW, if_neg (show ¬ pos = rate by omega)]
    rw [ih s (pos + 1) (by omega), readBytes_succ]
    have : pos + 1 + t = pos + (t + 1) := by omega
    rw [this]

/-- Squeezing `a + b` bytes is squeezing `a` bytes and then `b` bytes. -/
theorem squeezeBytesW_add (f : List Nat → List Nat) (rate : Nat) (a : Nat) :
    ∀ (b : Nat) (sp : List Nat × Nat),
      squeezeBytesW f rate (a + b) sp =
        ((squeezeBytesW f rate a sp).1 ++
           (squeezeBytesW f rate b (squeezeBytesW f rate a sp).2).1,
         (squeezeBytesW f rate b (squeezeBytesW f rate a sp).2).2) := by
  induction a with
  | zero =>
    intro b sp
    rw [Nat.zero_add]
    simp [squeezeBytesW]
  | succ a ih =>
    intro b sp
    have harr : a + 1 + b = (a + b) + 1 := by omega
    rw [harr]
    simp only [squeezeBytesW]
    rw [ih b (squeezeByteW f rate sp).2]
    simp [List.cons_append]

/-- Squeezing from position `rate` begins with a permutation. -/
theorem squeezeBytesW_permute (f : List Nat → List Nat) (rate : Nat) (h1 : 1 ≤ rate)
    (n : Nat) (s : List Nat) :
    squeezeBytesW f rate (n + 1) (s, rate) = squeezeBytesW f rate (n + 1) (f s, 0) := by
  simp only [squeezeBytesW, squeezeByteW, eq_self_iff_true, if_true,
    if_neg (show ¬ (0 : Nat) = rate by omega)]

/-- The byte-at-a-time squeeze keeps the position at most the rate. -/
theorem squeezeBytesW_pos_le (f : List Nat → List Nat) (rate : Nat) (h1 : 1 ≤ rate)
    (n : Nat) :
    ∀ sp : List Nat × Nat, sp.2 ≤ rate → (squeezeBytesW f rate n sp).2.2 ≤ rate := by
  induction n with
  | zero => intro sp h; exact h
  | succ n ih =>
    intro sp h
    simp only [squeezeBytesW]
    apply ih
    by_cases hp : sp.2 = rate
    · simp only [squeezeByteW, if_pos hp]
      omega
    · simp only [squeezeByteW, if_neg hp]
      show sp.2 + 1 ≤ rate
      omega

/-- The C squeeze loop from position `rate` begins with a permutation. -/
theorem squeezeLoopW_permute (f : List Nat → List Nat) (rate : Nat) (h1 : 1 ≤ rate)
    (fuel : Nat) (s : List Nat) (outlen : Nat) (h0 : ¬ outlen = 0) :
    squeezeLoopW f rate (fuel + 1) s rate outlen =
      squeezeLoopW f rate (fuel + 1) (f s) 0 outlen := by
  simp only [squeezeLoopW, if_neg h0, eq_self_iff_true, if_true,
    if_neg (show ¬ (0 : Nat) = rate by omega)]

/-- The C squeeze loop terminates with fuel `outlen` when `1 ≤ rate` and
`pos ≤ rate`, and computes the byte-at-a-time squeeze. -/
theorem squeezeLoopW_eq (f : List Nat → List Nat) (rate : Nat) (h1 : 1 ≤ rate) :
    ∀ (fuel outlen : Nat) (s : List Nat) (pos : Nat), pos ≤ rate → outlen ≤ fuel →
      squeezeLoopW f rate fuel s pos outlen = some (squeezeBytesW f rate outlen (s, pos)) := by
  intro fuel
  induction fuel with
  | zero =>
    intro outlen s pos hp hle
    have h0 : outlen = 0 := by omega
    subst h0
    simp [squeezeLoopW, squeezeBytesW]
  | succ fuel ih =>
    intro outlen s pos hp hle
    rcases Nat.eq_zero_or_pos outlen with h0 | hpos0
    · subst h0
      simp [squeezeLoopW, squeezeBytesW]
    · have h0 : ¬ outlen = 0 := by omega
      have key : ∀ (s : List Nat) (pos : Nat), pos < rate →
          squeezeLoopW f rate (fuel + 1) s pos outlen =
            some (squeezeBytesW f rate outlen (s, pos)) := by
        intro s pos hlt
        have hne : ¬ pos = rate := by omega
        simp only [squeezeLoopW, if_neg h0, if_neg hne]
        rw [usub64_of_le rate pos (Nat.le_of_lt hlt)]
        rw [ih (outlen - min (rate - pos) outlen) s (pos + min (rate - pos) outlen)
          (by omega) (by omega)]
        conv_rhs => rw [show outlen = min (rate - pos) outlen +
          (outlen - min (rate - pos) outlen) by omega]
        rw [squeezeBytesW_add]
        rw [squeezeBytesW_run f rate (min (rate - pos) outlen) s pos (by omega)]
      by_cases hpr : pos = rate
      · rw [hpr]
        rw [squeezeLoopW_permute f rate h1 fuel s outlen h0]
        obtain ⟨m, hm⟩ : ∃ m, outlen = m + 1 := ⟨outlen - 1, by omega⟩
        conv_rhs => rw [hm, squeezeBytesW_permute f rate h1 m s, ← hm]
        exact key (f s) 0 (by omega)
      · exact key s pos (by omega)

/-- `keccak1600_squeeze` (for any permutation parameter) succeeds on a context
with `pos ≤ rate` and computes the byte-at-a-time squeeze. -/
theorem squeezeW_eq (f : List Nat → List Nat) (ctx : keccak1600_ctx) (n : Nat)
    (h1 : 1 ≤ ctx.rate) (hp : ctx.pos ≤ ctx.rate) :
    squeezeW f ctx n =
      some ((squeezeBytesW f ctx.rate n (ctx.a, ctx.pos)).1,
            ⟨(squeezeBytesW f ctx.rate n (ctx.a, ctx.pos)).2.1, ctx.rate,
             (squeezeBytesW f ctx.rate n (ctx.a, ctx.pos)).2.2, ctx.delim⟩) := by
  obtain ⟨a, rate, pos, dl⟩ := ctx
  simp only at h1 hp ⊢
  simp only [squeezeW]
  rw [squeezeLoopW_eq f rate h1 n n a pos hp (Nat.le_refl _)]

/-!
Claim theorems.
-/

/-- C3: for every initialized context (`1 ≤ rate ≤ 200`, `pos < rate`) and
every way of splitting a byte sequence into chunks (empty chunks and
rate-boundary splits included), absorbing the chunks in order yields the same
context as one absorb of the concatenation; hence
`absorb A; absorb B; finalize; squeeze n` equals
`absorb (A ++ B); finalize; squeeze n`. -/
theorem keccak1600_absorb_chunk_independence (ctx : keccak1600_ctx)
    (chunks : List (List Nat)) (A B : List Nat) (n : Nat)
    (h1 : 1 ≤ ctx.rate) (h200 : ctx.rate ≤ 200) (h2 : ctx.pos < ctx.rate) :
    (chunks.foldl (fun oc ch => oc.bind (fun c => keccak1600_absorb c ch)) (some ctx)
        = keccak1600_absorb ctx chunks.flatten)
    ∧ ((keccak1600_absorb ctx A).bind (fun c => keccak1600_absorb c B)).map
        (fun c => keccak1600_squeeze (keccak1600_finalize c) n)
      = (keccak1600_absorb ctx (A ++ B)).map
        (fun c => keccak1600_squeeze (keccak1600_finalize c) n) := by
  refine ⟨keccak1600_absorb_flatten chunks ctx h1 h2, ?_⟩
  rw [keccak1600_absorb_absorb ctx A B h1 h2]

theorem keccak1600_absorb_chunk_independence_witness :
    (([[1, 2], [], [3, 4, 5, 6, 7]] : List (List Nat)).foldl
        (fun oc ch => oc.bind (fun c => keccak1600_absorb c ch))
        (some (keccak1600_init 3 6))
      = keccak1600_absorb (keccak1600_init 3 6)
          ([[1, 2], [], [3, 4, 5, 6, 7]] : List (List Nat)).flatten)
    ∧ ((keccak1600_absorb (keccak1600_init 3 6) [9]).bind
        (fun c => keccak1600_absorb c [8])).map
        (fun c => keccak1600_squeeze (keccak1600_finalize c) 5)
      = (keccak1600_absorb (keccak1600_init 3 6) ([9] ++ [8])).map
        (fun c => keccak1600_squeeze (keccak1600_finalize c) 5) :=
  keccak1600_absorb_chunk_independence (keccak1600_init 3 6)
    [[1, 2], [], [3, 4, 5, 6, 7]] [9] [8] 5 (by decide) (by decide) (by decide)

/-- C4: squeezing `k` bytes and then `n - k` bytes from a finalized context
(`1 ≤ rate ≤ 200`, `pos ≤ rate`) is byte-identical to one squeeze of `n`
bytes, rate-boundary splits included, and the final contexts agree. -/
theorem keccak1600_squeeze_streaming (ctx : keccak1600_ctx) (n k : Nat) (hk : k ≤ n)
    (h1 : 1 ≤ ctx.rate) (h200 : ctx.rate ≤ 200) (hp : ctx.pos ≤ ctx.rate) :
    (keccak1600_squeeze ctx k).bind
      (fun r => (keccak1600_squeeze r.2 (n - k)).map (fun r2 => (r.1 ++ r2.1, r2.2)))
      = keccak1600_squeeze ctx n := by
  show (squeezeW keccakf1600 ctx k).bind _ = squeezeW keccakf1600 ctx n
  rw [squeezeW_eq keccakf1600 ctx k h1 hp, Option.some_bind]
  have hple : (squeezeBytesW keccakf1600 ctx.rate k (ctx.a, ctx.pos)).2.2 ≤ ctx.rate :=
    squeezeBytesW_pos_le keccakf1600 ctx.rate h1 k (ctx.a, ctx.pos) hp
  rw [show keccak1600_squeeze = squeezeW keccakf1600 from rfl]
  rw [squeezeW_eq keccakf1600
    ⟨(squeezeBytesW keccakf1600 ctx.rate k (ctx.a, ctx.pos)).2.1, ctx.rate,
     (squeezeBytesW keccakf1600 ctx.rate k (ctx.a, ctx.pos)).2.2, ctx.delim⟩ (n - k) h1 hple]
  rw [squeezeW_eq keccakf1600 ctx n h1 hp]
  have hadd := squeezeBytesW_add keccakf1600 ctx.rate k (n - k) (ctx.a, ctx.pos)
  rw [show k + (n - k) = n by omega] at hadd
  rw [hadd]
  simp

theorem keccak1600_squeeze_streaming_witness :
    (keccak1600_squeeze (⟨List.replicate 25 0, 4, 2, 31⟩ : keccak1600_ctx) 3).bind
      (fun r => (keccak1600_squeeze r.2 (7 - 3)).map (fun r2 => (r.1 ++ r2.1, r2.2)))
      = keccak1600_squeeze (⟨List.replicate 25 0, 4, 2, 31⟩ : keccak1600_ctx) 7 :=
  keccak1600_squeeze_streaming ⟨List.replicate 25 0, 4, 2, 31⟩ 7 3
    (by decide) (by decide) (by decide) (by decide)

/-- `sha3_hash_generic` written with `Option.bind`/`Option.map`. -/
theorem sha3_hash_generic_bind (input : List Nat) (outlen rate dl : Nat) :
    sha3_hash_generic input outlen rate dl =
      (keccak1600_absorb (keccak1600_init rate dl) input).bind
        (fun c => (keccak1600_squeeze (keccak1600_finalize c) outlen).map (fun r => r.1)) := by
  unfold sha3_hash_generic
  cases keccak1600_absorb (keccak1600_init rate dl) input with
  | none => rfl
  | some c =>
    simp only [Option.some_bind]
    cases keccak1600_squeeze (keccak1600_finalize c) outlen with
    | none => rfl
    | some r => rfl

/-- C6: every one-shot helper is the sponge composition
`init(rate, delim); absorb(input); finalize; squeeze(outlen)` with its
variant's fixed parameters: keccak_256 = (136, 0x01, 32),
sha3_224 = (144, 0x06, 28), sha3_256 = (136, 0x06, 32),
sha3_384 = (104, 0x06, 48), sha3_512 = (72, 0x06, 64). -/
theorem one_shot_helpers_sponge_composition (input : List Nat) :
    keccak_256 input =
      (keccak1600_absorb (keccak1600_init 136 0x01) input).bind
        (fun c => (keccak1600_squeeze (keccak1600_finalize c) 32).map (fun r => r.1))
    ∧ sha3_224 input =
      (keccak1600_absorb (keccak1600_init 144 0x06) input).bind
        (fun c => (keccak1600_squeeze (keccak1600_finalize c) 28).map (fun r => r.1))
    ∧ sha3_256 input =
      (keccak1600_absorb (keccak1600_init 136 0x06) input).bind
        (fun c => (keccak1600_squeeze (keccak1600_finalize c) 32).map (fun r => r.1))
    ∧ sha3_384 input =
      (keccak1600_absorb (keccak1600_init 104 0x06) input).bind
        (fun c => (keccak1600_squeeze (keccak1600_finalize c) 48).map (fun r => r.1))
    ∧ sha3_512 input =
      (keccak1600_absorb (keccak1600_init 72 0x06) input).bind
        (fun c => (keccak1600_squeeze (keccak1600_finalize c) 64).map (fun r => r.1)) :=
  ⟨sha3_hash_generic_bind input 32 136 0x01,
   sha3_hash_generic_bind input 28 144 0x06,
   sha3_hash_generic_bind input 32 136 0x06,
   sha3_hash_generic_bind input 48 104 0x06,
   sha3_hash_generic_bind input 64 72 0x06⟩

/-- With `rate = 0` the full-block absorb loop guard `inlen >= rate` never
falls and the input is never consumed: the loop exhausts any fuel. -/
theorem absorbBlocksW_rate_zero (f : List Nat → List Nat) :
    ∀ (fuel : Nat) (s input : List Nat), absorbBlocksW f 0 fuel s input = none := by
  intro fuel
  induction fuel with
  | zero =>
    intro s input
    simp [absorbBlocksW]
  | succ fuel ih =>
    intro s input
    simp only [absorbBlocksW, if_pos (Nat.zero_le input.length), List.take_zero,
      List.drop_zero]
    exact ih _ _

/-- With `rate = 0` and a non-zero request, the squeeze loop entered at
position 0 — the position `keccak1600_init` establishes, and the only one a
rate-0 context can reach through the API — permutes, computes `t = 0` and
never makes progress: the loop exhausts any fuel. -/
theorem squeezeLoopW_rate_zero (f : List Nat → List Nat) :
    ∀ (fuel : Nat) (s : List Nat) (n : Nat), 0 < n →
      squeezeLoopW f 0 fuel s 0 n = none := by
  intro fuel
  induction fuel with
  | zero =>
    intro s n hn
    simp only [squeezeLoopW]
    rw [if_neg (by omega)]
  | succ fuel ih =>
    intro s n hn
    simp only [squeezeLoopW, if_neg (show ¬ n = 0 by omega), eq_self_iff_true, if_true,
      show usub64 0 0 = 0 from rfl, Nat.zero_min, Nat.sub_zero, Nat.add_zero]
    rw [ih (f s) n hn]

/-- Fidelity of the wrap: with `rate = 0` but a nonzero entry position (a
state unreachable through the API), the C loop computes `t = rate - pos`
wrapped on `size_t`, clamps it to `outlen`, copies `outlen` bytes from
`st + pos` and terminates in one iteration; the model reproduces this. -/
theorem squeezeLoopW_rate_zero_pos_copies (f : List Nat → List Nat)
    (s : List Nat) (pos n : Nat) (hpos : 0 < pos) (hn : 0 < n)
    (hle : pos + n ≤ 2 ^ 64) :
    squeezeLoopW f 0 1 s pos n = some (readBytes s pos n, s, pos + n) := by
  have h64 : (2 : Nat) ^ 64 = 18446744073709551616 := by norm_num
  have hu : usub64 0 pos = 2 ^ 64 - pos := by
    simp only [usub64, if_neg (show ¬ pos ≤ 0 by omega), Nat.sub_zero]
  have hmin : min (usub64 0 pos) n = n := by
    rw [hu]
    exact Nat.min_eq_right (by omega)
  simp only [squeezeLoopW, if_neg (show ¬ n = 0 by omega),
    if_neg (show ¬ pos = 0 by omega), hmin, Nat.sub_self, eq_self_iff_true, if_true,
    List.append_nil]

/-- C10: with `1 ≤ rate` (and the position invariant) the absorb and squeeze
loops terminate for every length; `keccak1600_init` stores any rate without
validation; and the precondition is necessary: with `rate = 0` the loops make
no progress on non-zero lengths (they exhaust any fuel), so the C loops
diverge.  For the squeeze loop this is stated from entry position 0, the
position `keccak1600_init` establishes and the only one a rate-0 context can
reach (absorb and squeeze at rate 0 diverge before ever storing a new
position); entered at an unreachable `pos > 0` the C loop instead wraps
`t = rate - pos` and terminates, which the model reproduces
(`squeezeLoopW_rate_zero_pos_copies`). -/
theorem keccak1600_loops_terminate_and_init_unchecked :
    (∀ (ctx : keccak1600_ctx) (input : List Nat), 1 ≤ ctx.rate → ctx.pos < ctx.rate →
        (keccak1600_absorb ctx input).isSome)
  ∧ (∀ (ctx : keccak1600_ctx) (n : Nat), 1 ≤ ctx.rate → ctx.pos ≤ ctx.rate →
        (keccak1600_squeeze ctx n).isSome)
  ∧ (∀ rate dl, keccak1600_init rate dl = ⟨List.replicate 25 0, rate, 0, dl⟩)
  ∧ (∀ (fuel : Nat) (s input : List Nat), 0 < input.length →
        absorbBlocksW keccakf1600 0 fuel s input = none)
  ∧ (∀ (fuel : Nat) (s : List Nat) (n : Nat), 0 < n →
        squeezeLoopW keccakf1600 0 fuel s 0 n = none)
  ∧ (∀ (ctx : keccak1600_ctx) (input : List Nat), ctx.rate = 0 → ctx.pos = 0 →
        keccak1600_absorb ctx input = none)
  ∧ (∀ (ctx : keccak1600_ctx) (n : Nat), ctx.rate = 0 → ctx.pos = 0 → 0 < n →
        keccak1600_squeeze ctx n = none) := by
  refine ⟨?_, ?_, fun _ _ => rfl, fun fuel s input _ => absorbBlocksW_rate_zero _ fuel s input,
    fun fuel s n hn => squeezeLoopW_rate_zero _ fuel s n hn, ?_, ?_⟩
  · intro ctx input h1 h2
    rw [keccak1600_absorb_eq ctx input h1 h2]
    rfl
  · intro ctx n h1 hp
    rw [show keccak1600_squeeze = squeezeW keccakf1600 from rfl,
      squeezeW_eq keccakf1600 ctx n h1 hp]
    rfl
  · intro ctx input hr hp
    obtain ⟨a, rate, pos, dl⟩ := ctx
    simp only at hr hp
    subst hr
    subst hp
    show absorbW keccakf1600 ⟨a, 0, 0, dl⟩ input = none
    simp only [absorbW, eq_self_iff_true, if_true]
    rw [absorbBlocksW_rate_zero]
  · intro ctx n hr hp hn
    obtain ⟨a, rate, pos, dl⟩ := ctx
    simp only at hr hp
    subst hr
    subst hp
    show squeezeW keccakf1600 ⟨a, 0, 0, dl⟩ n = none
    simp only [squeezeW]
    rw [squeezeLoopW_rate_zero keccakf1600 n a n hn]

theorem keccak1600_loops_terminate_and_init_unchecked_witness :
    (keccak1600_absorb (keccak1600_init 2 6) [1, 2, 3]).isSome
    ∧ keccak1600_squeeze (⟨List.replicate 25 0, 0, 0, 6⟩ : keccak1600_ctx) 5 = none :=
  ⟨keccak1600_loops_terminate_and_init_unchecked.1 (keccak1600_init 2 6) [1, 2, 3]
      (by decide) (by decide),
   keccak1600_loops_terminate_and_init_unchecked.2.2.2.2.2.2
      ⟨List.replicate 25 0, 0, 0, 6⟩ 5 (by decide) (by decide) (by decide)⟩

/-- C7 fails as stated: squeezing exactly up to a rate boundary returns with
`pos = rate`.  Concretely, after `init 1 6; finalize`, a 1-byte squeeze
returns a context whose position equals its rate. -/
theorem keccak1600_pos_invariant_counterexample :
    (keccak1600_squeeze (keccak1600_finalize (keccak1600_init 1 6)) 1).map
      (fun r => (r.2.pos, r.2.rate)) = some (1, 1) := by decide

/-- C7 (amended): `init` establishes `pos = 0`; `absorb` preserves
`0 ≤ pos < rate`; `finalize` resets `pos = 0`; `squeeze` only guarantees
`0 ≤ pos ≤ rate` and can return with `pos = rate` after squeezing to a rate
boundary (the next squeeze permutes and resets before copying). -/
theorem keccak1600_pos_invariant (rate dl : Nat) (ctx : keccak1600_ctx)
    (input : List Nat) (n : Nat) (c1 : keccak1600_ctx) (r : List Nat × keccak1600_ctx)
    (h1 : 1 ≤ ctx.rate) :
    (keccak1600_init rate dl).pos = 0
  ∧ (ctx.pos < ctx.rate → keccak1600_absorb ctx input = some c1 →
      c1.pos < c1.rate ∧ c1.rate = ctx.rate)
  ∧ (keccak1600_finalize ctx).pos = 0
  ∧ (ctx.pos ≤ ctx.rate → keccak1600_squeeze ctx n = some r →
      r.2.pos ≤ r.2.rate ∧ r.2.rate = ctx.rate) := by
  refine ⟨rfl, ?_, rfl, ?_⟩
  · intro h2 hc1
    obtain ⟨g1, g2, g3, _⟩ := keccak1600_absorb_inv ctx c1 input h1 h2 hc1
    exact ⟨g2, g3⟩
  · intro hp hr
    rw [show keccak1600_squeeze = squeezeW keccakf1600 from rfl,
      squeezeW_eq keccakf1600 ctx n h1 hp] at hr
    obtain rfl : _ = r := Option.some.inj hr
    exact ⟨squeezeBytesW_pos_le keccakf1600 ctx.rate h1 n (ctx.a, ctx.pos) hp, rfl⟩

theorem keccak1600_pos_invariant_witness :
    (keccak1600_init 7 31).pos = 0
  ∧ ((⟨List.replicate 25 0, 3, 1, 6⟩ : keccak1600_ctx).pos <
        (⟨List.replicate 25 0, 3, 1, 6⟩ : keccak1600_ctx).rate →
      keccak1600_absorb (⟨List.replicate 25 0, 3, 1, 6⟩ : keccak1600_ctx) [5, 5, 5, 5]
          = some ⟨(absorbBytesW keccakf1600 3 (List.replicate 25 0, 1) [5, 5, 5, 5]).1, 3,
                  (absorbBytesW keccakf1600 3 (List.replicate 25 0, 1) [5, 5, 5, 5]).2, 6⟩ →
      (⟨(absorbBytesW keccakf1600 3 (List.replicate 25 0, 1) [5, 5, 5, 5]).1, 3,
        (absorbBytesW keccakf1600 3 (List.replicate 25 0, 1) [5, 5, 5, 5]).2, 6⟩ :
          keccak1600_ctx).pos <
        (⟨(absorbBytesW keccakf1600 3 (List.replicate 25 0, 1) [5, 5, 5, 5]).1, 3,
          (absorbBytesW keccakf1600 3 (List.replicate 25 0, 1) [5, 5, 5, 5]).2, 6⟩ :
            keccak1600_ctx).rate ∧
      (⟨(absorbBytesW keccakf1600 3 (List.replicate 25 0, 1) [5, 5, 5, 5]).1, 3,
        (absorbBytesW keccakf1600 3 (List.replicate 25 0, 1) [5, 5, 5, 5]).2, 6⟩ :
          keccak1600_ctx).rate = (⟨List.replicate 25 0, 3, 1, 6⟩ : keccak1600_ctx).rate)
  ∧ (keccak1600_finalize (⟨List.replicate 25 0, 3, 1, 6⟩ : keccak1600_ctx)).pos = 0
  ∧ ((⟨List.replicate 25 0, 3, 1, 6⟩ : keccak1600_ctx).pos ≤
        (⟨List.replicate 25 0, 3, 1, 6⟩ : keccak1600_ctx).rate →
      keccak1600_squeeze (⟨List.replicate 25 0, 3, 1, 6⟩ : keccak1600_ctx) 4
          = some ([9, 9], ⟨List.replicate 25 0, 3, 2, 6⟩) →
      (([9, 9], (⟨List.replicate 25 0, 3, 2, 6⟩ : keccak1600_ctx)) :
          List Nat × keccak1600_ctx).2.pos ≤
        (([9, 9], (⟨List.replicate 25 0, 3, 2, 6⟩ : keccak1600_ctx)) :
          List Nat × keccak1600_ctx).2.rate ∧
      (([9, 9], (⟨List.replicate 25 0, 3, 2, 6⟩ : keccak1600_ctx)) :
          List Nat × keccak1600_ctx).2.rate =
        (⟨List.replicate 25 0, 3, 1, 6⟩ : keccak1600_ctx).rate) :=
  keccak1600_pos_invariant 7 31 ⟨List.replicate 25 0, 3, 1, 6⟩ [5, 5, 5, 5] 4
    ⟨(absorbBytesW keccakf1600 3 (List.replicate 25 0, 1) [5, 5, 5, 5]).1, 3,
     (absorbBytesW keccakf1600 3 (List.replicate 25 0, 1) [5, 5, 5, 5]).2, 6⟩
    ([9, 9], ⟨List.replicate 25 0, 3, 2, 6⟩) (by decide)

/-- Grounding: the spec-side permutation reproduces the published
Keccak-f[1600] test vector for the all-zero state. -/
theorem specKeccakP_zero_state :
    specKeccakP (List.replicate 25 0) =
      [0xf1258f7940e1dde7, 0x84d5ccf933c0478a, 0xd598261ea65aa9ee, 0xbd1547306f80494d,
       0x8b284e056253d057, 0xff97a42d7f8e6fd4, 0x90fee5a0a44647c4, 0x8c5bda0cd6192e76,
       0xad30a6f71b19059c, 0x30935ab7d08ffc64, 0xeb5aa93f2317d635, 0xa9a6e6260d712103,
       0x81a57c16dbcf555f, 0x43b831cd0347c826, 0x01f22f1a11a5569f, 0x05e5635a21d9ae61,
       0x64befef28cc970f2, 0x613670957bc46611, 0xb87c5a554fd00ecb, 0x8c3ee88a1ccf32c8,
       0x940c7922ae3a2614, 0x1841f924a2c509e4, 0x16f53526e70465c2, 0x75f644e97f30a13b,
       0xeaf1ff7b5ceca249] := by decide

/-- C2 fails on the code: `keccakf1600` is not the standard Keccak-f[1600]
permutation.  On the all-zero state the code computes a state different from
the published Keccak-f[1600] zero-state vector (which `specKeccakP`, the
Theta/RhoPi/Chi/Iota permutation with the standard tables, reproduces), and
already a single round diverges: the code's rho-pi step moves lane `(x, y)`
to `(y, x)` instead of to `(y, 2x + 3y)`. -/
theorem keccakf1600_not_standard_permutation :
    keccakf1600 (List.replicate 25 0) =
      [0x3fe125c4026115d6, 0x69116d6bad1e554d, 0xbfad3bb533b371c0, 0x3ebb47469c2883c6,
       0xab5e18f600f7bccf, 0x71949bef4b9b8872, 0x24af409c9b6d9a6b, 0xa9b1edc46a969af9,
       0x77153b7decc3d2fc, 0x292227c4b3714ebc, 0x2c3248d398d7d187, 0xf22cb2093a9e2fec,
       0x8ad54fd30f804e43, 0x86a5047416f5fa74, 0xe162db41e1ff937b, 0x64f229cae0e96312,
       0x1969b5554239a4b8, 0x26f313d0cafc7044, 0x96b2b29d707fe758, 0x607941a6b382628b,
       0xf88bbdadd68be590, 0xf6e9fe687fbadce2, 0x9142d489855ae2c2, 0xa8d789cd0826b072,
       0x0b0889413d078f50]
  ∧ keccakf1600 (List.replicate 25 0) ≠ specKeccakP (List.replicate 25 0)
  ∧ keccakRound ((List.replicate 25 0).set 6 1) 0 ≠
      specRound ((List.replicate 25 0).set 6 1) 0 := by decide

/-- C1 fails on the code: because `keccakf1600` is not the standard
permutation, the empty-input digests of `keccak_256` and `sha3_256` are not
the standard known-answer digests the spec quotes (beyond the spec's hex
strings also being truncated to 63 nibbles). -/
theorem empty_input_digests_not_standard :
    keccak_256 [] = some
      [158, 76, 17, 178, 165, 103, 199, 47, 180, 87, 169, 222, 225, 111, 99, 108,
       91, 31, 22, 160, 55, 46, 224, 125, 143, 203, 231, 41, 213, 55, 49, 160]
  ∧ sha3_256 [] = some
      [77, 68, 249, 23, 162, 97, 35, 40, 191, 114, 99, 130, 162, 188, 178, 229,
       239, 171, 56, 116, 233, 143, 198, 61, 30, 153, 107, 116, 51, 63, 240, 220]
  ∧ keccak_256 [] ≠ some
      [197, 210, 70, 1, 134, 247, 35, 60, 146, 126, 125, 178, 220, 199, 3, 192,
       229, 0, 182, 83, 202, 130, 39, 59, 123, 250, 216, 4, 93, 133, 164, 112]
  ∧ sha3_256 [] ≠ some
      [167, 255, 198, 248, 191, 30, 215, 102, 81, 193, 71, 86, 160, 97, 214, 98,
       245, 128, 255, 77, 228, 59, 73, 250, 130, 216, 10, 75, 128, 248, 67, 74] := by
  decide

/-!
Byte-level reasoning on the little-endian lane view.
-/

/-- XORing a byte into one sub-byte of a lane leaves the other sub-bytes of
that lane unchanged. -/
theorem byte_of_xor_shift_ne (x b m1 m2 : Nat) (hb : b < 256) (hne : m1 ≠ m2) :
    ((x ^^^ (b <<< (8 * m2))) >>> (8 * m1)) &&& 255 = (x >>> (8 * m1)) &&& 255 := by
  apply Nat.eq_of_testBit_eq
  intro k
  rw [show (255 : Nat) = 2 ^ 8 - 1 from rfl]
  simp only [Nat.testBit_land, Nat.testBit_two_pow_sub_one, Nat.testBit_shiftRight,
    Nat.testBit_xor, Nat.testBit_shiftLeft]
  rcases Nat.lt_or_ge k 8 with hk | hk
  · by_cases hle : 8 * m2 ≤ 8 * m1 + k
    · have hbk : b < 2 ^ (8 * m1 + k - 8 * m2) := by
        calc b < 256 := hb
          _ = 2 ^ 8 := rfl
          _ ≤ 2 ^ (8 * m1 + k - 8 * m2) := Nat.pow_le_pow_right (by omega) (by omega)
      simp [hle, Nat.testBit_eq_false_of_lt hbk]
    · simp [hle]
  · simp [show ¬ k < 8 by omega]

/-- XORing a byte into a sub-byte of a lane XORs exactly that byte of the
lane's byte view. -/
theorem byte_of_xor_shift_eq (x b m : Nat) (hb : b < 256) :
    ((x ^^^ (b <<< (8 * m))) >>> (8 * m)) &&& 255 = ((x >>> (8 * m)) &&& 255) ^^^ b := by
  apply Nat.eq_of_testBit_eq
  intro k
  rw [show (255 : Nat) = 2 ^ 8 - 1 from rfl]
  simp only [Nat.testBit_land, Nat.testBit_two_pow_sub_one, Nat.testBit_shiftRight,
    Nat.testBit_xor, Nat.testBit_shiftLeft]
  rcases Nat.lt_or_ge k 8 with hk | hk
  · simp [show 8 * m ≤ 8 * m + k by omega, show 8 * m + k - 8 * m = k by omega, hk]
  · have hbk : b < 2 ^ k := by
      calc b < 256 := hb
        _ = 2 ^ 8 := rfl
        _ ≤ 2 ^ k := Nat.pow_le_pow_right (by omega) (by omega)
    simp [show ¬ k < 8 by omega, Nat.testBit_eq_false_of_lt hbk]

/-- `st[j] ^= b` changes byte `j` of the state view by XOR with `b`. -/
theorem stGetByte_stXorByte_eq (a : List Nat) (j b : Nat) (hb : b < 256)
    (hj : j / 8 < a.length) :
    stGetByte (stXorByte a j b) j = stGetByte a j ^^^ b := by
  simp only [stGetByte, stXorByte]
  rw [List.getD_eq_getElem?_getD, List.getElem?_set_self hj, Option.getD_some]
  exact byte_of_xor_shift_eq (a.getD (j / 8) 0) b (j % 8) hb

/-- `st[j] ^= b` leaves every other byte of the state view unchanged. -/
theorem stGetByte_stXorByte_ne (a : List Nat) (i j b : Nat) (hb : b < 256)
    (hij : i ≠ j) (hj : j / 8 < a.length) :
    stGetByte (stXorByte a j b) i = stGetByte a i := by
  by_cases hl : i / 8 = j / 8
  · have hm : i % 8 ≠ j % 8 := by omega
    simp only [stGetByte, stXorByte, hl]
    rw [List.getD_eq_getElem?_getD, List.getElem?_set_self hj, Option.getD_some]
    exact byte_of_xor_shift_ne (a.getD (j / 8) 0) b (i % 8) (j % 8) hb hm
  · simp only [stGetByte, stXorByte]
    rw [List.getD_eq_getElem?_getD, List.getElem?_set_ne (by omega),
      ← List.getD_eq_getElem?_getD]

/-- C5: `keccak1600_finalize` XORs `delim` into byte `pos` and `0x80` into
byte `rate - 1` of the state view (one byte receiving both when
`pos = rate - 1`), applies `keccakf1600` exactly once, resets `pos` to 0, and
changes nothing else in the context. -/
theorem keccak1600_finalize_spec (ctx : keccak1600_ctx)
    (hb : ctx.delim < 256) (h2 : ctx.pos < ctx.rate) (h200 : ctx.rate ≤ 200)
    (hlen : ctx.a.length = 25) :
    keccak1600_finalize ctx =
      ⟨keccakf1600 (stXorByte (stXorByte ctx.a ctx.pos ctx.delim) (ctx.rate - 1) 0x80),
       ctx.rate, 0, ctx.delim⟩
    ∧ ∀ i, i < 200 →
        stGetByte (stXorByte (stXorByte ctx.a ctx.pos ctx.delim) (ctx.rate - 1) 0x80) i
          = (stGetByte ctx.a i ^^^ (if i = ctx.pos then ctx.delim else 0)) ^^^
              (if i = ctx.rate - 1 then 0x80 else 0) := by
  refine ⟨rfl, ?_⟩
  intro i hi
  have hlen1 : (stXorByte ctx.a ctx.pos ctx.delim).length = 25 := by
    simp [stXorByte, hlen]
  by_cases h80 : i = ctx.rate - 1
  · rw [h80, stGetByte_stXorByte_eq _ _ _ (by norm_num) (by rw [hlen1]; omega)]
    rw [if_pos rfl]
    by_cases hpd : ctx.rate - 1 = ctx.pos
    · rw [hpd, stGetByte_stXorByte_eq _ _ _ hb (by rw [hlen]; omega)]
      rw [if_pos (by omega)]
    · rw [stGetByte_stXorByte_ne _ _ _ _ hb (by omega) (by rw [hlen]; omega),
        if_neg (by omega)]
      simp
  · rw [stGetByte_stXorByte_ne _ _ _ _ (by norm_num) (by omega) (by rw [hlen1]; omega),
      if_neg h80]
    by_cases hpd : i = ctx.pos
    · rw [hpd, stGetByte_stXorByte_eq _ _ _ hb (by rw [hlen]; omega), if_pos rfl]
      simp
    · rw [stGetByte_stXorByte_ne _ _ _ _ hb hpd (by rw [hlen]; omega), if_neg hpd]
      simp

theorem keccak1600_finalize_spec_witness :
    keccak1600_finalize (⟨List.replicate 25 0, 5, 4, 6⟩ : keccak1600_ctx) =
      ⟨keccakf1600 (stXorByte (stXorByte (List.replicate 25 0) 4 6) (5 - 1) 0x80),
       5, 0, 6⟩
    ∧ ∀ i, i < 200 →
        stGetByte (stXorByte (stXorByte (List.replicate 25 0) 4 6) (5 - 1) 0x80) i
          = (stGetByte (List.replicate 25 0) i ^^^ (if i = 4 then 6 else 0)) ^^^
              (if i = 5 - 1 then 0x80 else 0) :=
  keccak1600_finalize_spec ⟨List.replicate 25 0, 5, 4, 6⟩
    (by decide) (by decide) (by decide) (by decide)

/-- With the permutation replaced by the identity, one absorbed byte just
XORs into the state at the current position. -/
theorem absorbByteW_id_state (rate : Nat) (sp : List Nat × Nat) (b : Nat) :
    (absorbByteW id rate sp b).1 = stXorByte sp.1 sp.2 b := by
  simp only [absorbByteW, id]
  split <;> rfl

/-- With the permutation replaced by the identity, the absorb byte loop
preserves the state length and every byte of the state view at index
`rate` or beyond: the byte loop itself writes only inside the rate window. -/
theorem absorbBytesW_id_frame (rate : Nat) (h1 : 1 ≤ rate) (h200 : rate ≤ 200)
    (bs : List Nat) :
    ∀ sp : List Nat × Nat, sp.2 < rate → sp.1.length = 25 → (∀ b ∈ bs, b < 256) →
      (absorbBytesW id rate sp bs).1.length = 25 ∧
      ∀ i, rate ≤ i → stGetByte (absorbBytesW id rate sp bs).1 i = stGetByte sp.1 i := by
  induction bs with
  | nil => intro sp h hl _; exact ⟨hl, fun i _ => rfl⟩
  | cons b bs ih =>
    intro sp h hl hin
    have hb : b < 256 := hin b (List.mem_cons_self b bs)
    have hl1 : (absorbByteW id rate sp b).1.length = 25 := by
      rw [absorbByteW_id_state]
      simp [stXorByte, hl]
    have hfr : ∀ i, rate ≤ i →
        stGetByte (absorbByteW id rate sp b).1 i = stGetByte sp.1 i := by
      intro i hi
      rw [absorbByteW_id_state]
      exact stGetByte_stXorByte_ne sp.1 i sp.2 b hb (by omega) (by rw [hl]; omega)
    have hp1 : (absorbByteW id rate sp b).2 < rate := absorbByteW_pos_lt id rate h1 sp b h
    have hrec := ih (absorbByteW id rate sp b) hp1 hl1 (fun x hx => hin x (List.mem_cons_of_mem b hx))
    refine ⟨hrec.1, fun i hi => ?_⟩
    show stGetByte (absorbBytesW id rate (absorbByteW id rate sp b) bs).1 i = stGetByte sp.1 i
    rw [hrec.2 i hi, hfr i hi]

/-- With the permutation replaced by the identity, the squeeze byte loop
never writes the state at all. -/
theorem squeezeBytesW_id_state (rate : Nat) (n : Nat) :
    ∀ sp : List Nat × Nat, (squeezeBytesW id rate n sp).2.1 = sp.1 := by
  induction n with
  | zero => intro sp; rfl
  | succ n ih =>
    intro sp
    show (squeezeBytesW id rate n (squeezeByteW id rate sp).2).2.1 = sp.1
    rw [ih]
    simp only [squeezeByteW, id]
    split <;> rfl

/-- C8: the absorb and squeeze byte loops themselves write only bytes
`0 .. rate-1` of the 200-byte state view; the capacity bytes change only
through the permutation calls.  Formalised by instantiating the permutation
parameter with the identity: then absorb leaves every byte at index `rate`
or beyond unchanged, and squeeze leaves the whole state unchanged. -/
theorem keccak1600_capacity_frame (ctx : keccak1600_ctx) (input : List Nat) (n : Nat)
    (h1 : 1 ≤ ctx.rate) (h200 : ctx.rate ≤ 200) (h2 : ctx.pos < ctx.rate)
    (hlen : ctx.a.length = 25) (hin : ∀ b ∈ input, b < 256) :
    (∀ c1, absorbW id ctx input = some c1 →
       ∀ i, ctx.rate ≤ i → stGetByte c1.a i = stGetByte ctx.a i)
    ∧ (∀ r, squeezeW id ctx n = some r → r.2.a = ctx.a) := by
  constructor
  · intro c1 hc1 i hi
    rw [absorbW_eq id ctx input h1 h2] at hc1
    obtain rfl : _ = c1 := Option.some.inj hc1
    exact (absorbBytesW_id_frame ctx.rate h1 h200 input (ctx.a, ctx.pos) h2 hlen hin).2 i hi
  · intro r hr
    rw [squeezeW_eq id ctx n h1 (Nat.le_of_lt h2)] at hr
    obtain rfl : _ = r := Option.some.inj hr
    exact squeezeBytesW_id_state ctx.rate n (ctx.a, ctx.pos)

theorem keccak1600_capacity_frame_witness :
    (∀ c1, absorbW id (⟨List.replicate 25 0, 4, 1, 6⟩ : keccak1600_ctx) [7, 8, 9] = some c1 →
       ∀ i, (⟨List.replicate 25 0, 4, 1, 6⟩ : keccak1600_ctx).rate ≤ i →
         stGetByte c1.a i = stGetByte (⟨List.replicate 25 0, 4, 1, 6⟩ : keccak1600_ctx).a i)
    ∧ (∀ r, squeezeW id (⟨List.replicate 25 0, 4, 1, 6⟩ : keccak1600_ctx) 3 = some r →
       r.2.a = (⟨List.replicate 25 0, 4, 1, 6⟩ : keccak1600_ctx).a) :=
  keccak1600_capacity_frame ⟨List.replicate 25 0, 4, 1, 6⟩ [7, 8, 9] 3
    (by decide) (by decide) (by decide) (by decide) (by decide)

/-!
Pointer-style wrappers: the C functions receive `(const uint8_t *in, size_t
inlen)`; the bytes actually read are `in[0 .. inlen-1]`.  A memory is an
arbitrary function from addresses to bytes, so an absent (null) pointer is a
memory about which nothing is known; the zero-length calls are proved
independent of it.
-/

/-- The `inlen` bytes at a pointer into memory `mem`. -/
def readMem (mem : Nat → Nat) (inlen : Nat) : List Nat :=
  (List.range inlen).map mem

/-- `keccak1600_absorb(ctx, in, inlen)` on a pointer into memory `mem`. -/
def keccak1600_absorb_mem (ctx : keccak1600_ctx) (mem : Nat → Nat) (inlen : Nat) :
    Option keccak1600_ctx :=
  keccak1600_absorb ctx (readMem mem inlen)

/-- `keccak_256(in, inlen, out)` on a pointer into memory `mem`. -/
def keccak_256_mem (mem : Nat → Nat) (inlen : Nat) : Option (List Nat) :=
  keccak_256 (readMem mem inlen)

/-- `sha3_224(in, inlen, out)` on a pointer into memory `mem`. -/
def sha3_224_mem (mem : Nat → Nat) (inlen : Nat) : Option (List Nat) :=
  sha3_224 (readMem mem inlen)

/-- `sha3_256(in, inlen, out)` on a pointer into memory `mem`. -/
def sha3_256_mem (mem : Nat → Nat) (inlen : Nat) : Option (List Nat) :=
  sha3_256 (readMem mem inlen)

/-- `sha3_384(in, inlen, out)` on a pointer into memory `mem`. -/
def sha3_384_mem (mem : Nat → Nat) (inlen : Nat) : Option (List Nat) :=
  sha3_384 (readMem mem inlen)

/-- `sha3_512(in, inlen, out)` on a pointer into memory `mem`. -/
def sha3_512_mem (mem : Nat → Nat) (inlen : Nat) : Option (List Nat) :=
  sha3_512 (readMem mem inlen)

/-- C9: with `inlen = 0` the input memory is never read — the result of
`keccak1600_absorb` and of every one-shot helper is the same for any two
memories — and each helper completes, writing its (this code's) empty-input
digest. -/
theorem zero_length_input_is_safe (f g : Nat → Nat) (ctx : keccak1600_ctx) :
    keccak1600_absorb_mem ctx f 0 = keccak1600_absorb_mem ctx g 0
  ∧ keccak_256_mem f 0 = keccak_256_mem g 0
  ∧ sha3_224_mem f 0 = sha3_224_mem g 0
  ∧ sha3_256_mem f 0 = sha3_256_mem g 0
  ∧ sha3_384_mem f 0 = sha3_384_mem g 0
  ∧ sha3_512_mem f 0 = sha3_512_mem g 0
  ∧ keccak_256_mem f 0 = some
      [158, 76, 17, 178, 165, 103, 199, 47, 180, 87, 169, 222, 225, 111, 99, 108,
       91, 31, 22, 160, 55, 46, 224, 125, 143, 203, 231, 41, 213, 55, 49, 160]
  ∧ sha3_224_mem f 0 = some
      [192, 94, 15, 92, 155, 3, 248, 145, 101, 13, 15, 254, 28, 94, 214, 176,
       222, 86, 160, 240, 167, 4, 210, 6, 31, 164, 90, 19]
  ∧ sha3_256_mem f 0 = some
      [77, 68, 249, 23, 162, 97, 35, 40, 191, 114, 99, 130, 162, 188, 178, 229,
       239, 171, 56, 116, 233, 143, 198, 61, 30, 153, 107, 116, 51, 63, 240, 220]
  ∧ sha3_384_mem f 0 = some
      [71, 232, 131, 126, 167, 159, 229, 238, 201, 179, 61, 79, 98, 32, 18, 114,
       235, 107, 187, 166, 110, 81, 98, 119, 130, 113, 190, 137, 168, 86, 21, 40,
       125, 96, 154, 59, 207, 106, 12, 102, 82, 16, 50, 210, 181, 12, 105, 145]
  ∧ sha3_512_mem f 0 = some
      [117, 11, 174, 214, 171, 246, 52, 113, 41, 133, 204, 134, 21, 37, 121, 71,
       80, 190, 218, 45, 230, 166, 214, 124, 30, 250, 175, 218, 79, 60, 42, 113,
       70, 198, 24, 253, 105, 27, 19, 14, 90, 92, 170, 154, 0, 103, 153, 104,
       70, 57, 18, 114, 120, 90, 127, 217, 112, 111, 158, 244, 181, 58, 212, 59] :=
  by
  refine ⟨rfl, rfl, rfl, rfl, rfl, rfl, ?_, ?_, ?_, ?_, ?_⟩
  · show keccak_256 [] = _
    decide
  · show sha3_224 [] = _
    decide
  · show sha3_256 [] = _
    decide
  · show sha3_384 [] = _
    decide
  · show sha3_512 [] = _
    decide
